import Mathlib

/-!
Verification of libaoc (DutchGhost/libaoc) against its specification.

The Rust sources are shallowly embedded:
* `Direction`, `Position` and their methods come from `src/movement.rs`
  (four-variant `Direction`, as in the data model of the spec).
* `minmax` / `maxmin` come from the `MinMax` impl for `(T, T)` in `src/lib.rs`.
* `try_convert` / `try_convert_into_slice` come from the `TryConvert` impl in
  `src/convert.rs`; iterators are embedded as lists, and the `FromStr`
  parameter is embedded as an explicit `parse : σ → Except ε υ` function.
* The `convert!` / `arraycollect!` macro of `src/convert.rs` is embedded as
  `arraycollect`, with the array slots made explicit (`Slot`) so that writes
  to and drops of uninitialized memory can be stated and tracked.
-/

namespace Libaoc

/-- `Direction` from `src/movement.rs`: exactly four variants. -/
inductive Direction where
  | Up
  | Down
  | Right
  | Left
  deriving DecidableEq

/-- `Direction::turn_right` from `src/movement.rs`. -/
def Direction.turn_right : Direction → Direction
  | .Up => .Right
  | .Right => .Down
  | .Down => .Left
  | .Left => .Up

/-- `Direction::turn_left` from `src/movement.rs`. -/
def Direction.turn_left : Direction → Direction
  | .Up => .Left
  | .Left => .Down
  | .Down => .Right
  | .Right => .Up

/-- `Direction::reverse` from `src/movement.rs`. -/
def Direction.reverse : Direction → Direction
  | .Up => .Down
  | .Down => .Up
  | .Left => .Right
  | .Right => .Left

/-- The `Display` impl for `Direction` (`src/movement.rs` lines 80-84 and
`src/lib.rs` lines 416-420) is
`fn fmt(&self, f) { write!(f, "{}", self) }`: the `{}` specifier invokes the
very same `Display::fmt` on `self` again.  We embed the recursion with an
explicit fuel bound on the nesting depth: `fmtFuel fuel d` is the string the
formatter produces if the recursion terminates within `fuel` nested calls,
and `none` if the fuel runs out. Each unfolding of the source body consumes
one unit of fuel and delegates the whole job to the recursive call. -/
def Direction.fmtFuel : Nat → Direction → Option String
  | 0, _ => none
  | fuel + 1, d => Direction.fmtFuel fuel d

/-- `Position<N>` from `src/movement.rs`: a record with fields `x` and `y`. -/
structure Position (N : Type u) where
  x : N
  y : N
  deriving DecidableEq

/-- Componentwise subtraction: the `Sub` impl generated for `Position` by the
`binops!` macro in `src/movement.rs`. -/
instance [Sub N] : Sub (Position N) where
  sub p q := ⟨p.x - q.x, p.y - q.y⟩

/-- `Position::change` from `src/movement.rs` (lines 211-219):
`Up` does `y -= steps`, `Down` does `y += steps`, `Right` does `x += steps`,
`Left` does `x -= steps`. -/
def Position.change [Add N] [Sub N] (p : Position N) (direction : Direction)
    (steps : N) : Position N :=
  match direction with
  | .Up => { p with y := p.y - steps }
  | .Down => { p with y := p.y + steps }
  | .Right => { p with x := p.x + steps }
  | .Left => { p with x := p.x - steps }

/-- `Position::rev_change` from `src/movement.rs` (lines 238-246): like
`change` but with the `y` axis inverted. -/
def Position.rev_change [Add N] [Sub N] (p : Position N) (direction : Direction)
    (steps : N) : Position N :=
  match direction with
  | .Up => { p with y := p.y + steps }
  | .Down => { p with y := p.y - steps }
  | .Right => { p with x := p.x + steps }
  | .Left => { p with x := p.x - steps }

/-- The `Absolute` impl for `Position<N>` from `src/movement.rs`, at `N = ℤ`
(where the `Absolute` impl for the signed primitive is `self.abs()`). -/
def Position.abs (p : Position ℤ) : Position ℤ :=
  ⟨|p.x|, |p.y|⟩

/-- `Position::is_adjecent` from `src/movement.rs` (lines 273-284), at
`N = ℤ`: match on `(self - other).abs()` against `(0, 1)`, `(1, 0)`,
`(1, 1)`. -/
def Position.is_adjecent (p other : Position ℤ) : Bool :=
  let d := (p - other).abs
  if d.x = 0 ∧ d.y = 1 then true
  else if d.x = 1 ∧ d.y = 0 then true
  else if d.x = 1 ∧ d.y = 1 then true
  else false

/-- `minmax` from the `MinMax` impl for `(T, T)` in `src/lib.rs`
(lines 144-150): `if self.0 < self.1 { self } else { (self.1, self.0) }`. -/
def minmax [LinearOrder T] (t : T × T) : T × T :=
  if t.1 < t.2 then t else (t.2, t.1)

/-- `maxmin` from the `MinMax` impl for `(T, T)` in `src/lib.rs`
(lines 152-159): `if self.0 > self.1 { self } else { (self.1, self.0) }`. -/
def maxmin [LinearOrder T] (t : T × T) : T × T :=
  if t.1 > t.2 then t else (t.2, t.1)

/-- `try_convert` from the `TryConvert` impl in `src/convert.rs`
(lines 87-90, also `src/lib.rs` lines 249-252):
`self.try_convert_iter().collect()` into a `Result<Vec<U>, E>`.  The iterator
is a list, parsing is the explicit `parse`.  `collect` into a `Result` pulls
items one by one, keeping the successes, and stops at the first item whose
parse fails, returning that error.  Besides the result we return how many
items were pulled from the iterator (the failing item itself is pulled). -/
def try_convert (parse : σ → Except ε υ) : List σ → Except ε (List υ) × Nat
  | [] => (Except.ok [], 0)
  | s :: src =>
    match parse s with
    | Except.error e => (Except.error e, 1)
    | Except.ok v =>
      match try_convert parse src with
      | (Except.ok vs, c) => (Except.ok (v :: vs), c + 1)
      | (Except.error e, c) => (Except.error e, c + 1)

/-- `try_convert_into_slice` from the `TryConvert` impl in `src/convert.rs`
(lines 92-105): walk `slice.iter_mut().zip(self.try_convert_iter())`,
writing each successful conversion and counting the writes; on the first
parse failure return `Err(number_of_writes)` at once, leaving the rest of the
slice untouched.  The zip pulls from the slice side first, so an empty slice
pulls nothing from the iterator.  Returns the `Result<usize, usize>` and the
final contents of the slice. -/
def try_convert_into_slice (parse : σ → Except ε υ) :
    List υ → List σ → Except Nat Nat × List υ
  | [], _ => (Except.ok 0, [])
  | buf, [] => (Except.ok 0, buf)
  | b :: buf, s :: src =>
    match parse s with
    | Except.ok v =>
      match try_convert_into_slice parse buf src with
      | (Except.ok k, rest) => (Except.ok (k + 1), v :: rest)
      | (Except.error k, rest) => (Except.error (k + 1), v :: rest)
    | Except.error _ => (Except.error 0, b :: buf)

/-- One slot of the `std::mem::uninitialized()` array in the
`convert!` / `arraycollect!` macro (`src/convert.rs` lines 225-254):
either still uninitialized, or holding a written value. -/
inductive Slot (β : Type u) where
  | uninit
  | filled (b : β)
  deriving DecidableEq

/-- The value a slot holds, if it was written. -/
def Slot.value? : Slot β → Option β
  | .uninit => none
  | .filled b => some b

/-- The fill loop of the `convert!` macro:
`for (dst, src) in arr.iter_mut().zip($iter) { ptr::write(dst, src.into()); filled += 1; }`.
The array is a list of slots, the iterator a list of source items, `conv` the
`.into()` conversion.  `Zip` pulls from the array side first, so once the
array is exhausted the iterator is not pulled again.  Returns the array after
the loop, the value of `filled`, and the items left in the iterator. -/
def fillLoop (conv : α → β) : List (Slot β) → List α → List (Slot β) × Nat × List α
  | [], src => ([], 0, src)
  | arr, [] => (arr, 0, [])
  | _ :: arr, a :: src =>
    let r := fillLoop conv arr src
    (Slot.filled (conv a) :: r.1, r.2.1 + 1, r.2.2)

/-- The `convert!` / `arraycollect!` macro from `src/convert.rs`
(lines 225-254): allocate `n` uninitialized slots, run the fill loop, and if
`filled != n` run `for i in 0..filled { ptr::drop_in_place(&mut arr[i]) }`,
forget the array and return `Err("Too few elements")`; otherwise return
`Ok(arr)`.  Result: the returned `Result`, the list of slot indices passed to
`drop_in_place` (in order), and the items left in the iterator.  In the `Ok`
case the returned array is read off the slots. -/
def arraycollect (conv : α → β) (n : Nat) (src : List α) :
    Except String (List β) × List Nat × List α :=
  let r := fillLoop conv (List.replicate n Slot.uninit) src
  if r.2.1 ≠ n then
    (Except.error "Too few elements", List.range r.2.1, r.2.2)
  else
    (Except.ok (r.1.filterMap Slot.value?), [], r.2.2)

/-- Behaviour of the fill loop on the freshly allocated all-uninitialized
array: the first `min n (src.length)` slots are written with the converted
items in order, the remaining slots stay uninitialized, `filled` ends at
`min n (src.length)`, and exactly `min n (src.length)` items are pulled. -/
theorem fillLoop_replicate (conv : α → β) (n : Nat) (src : List α) :
    fillLoop conv (List.replicate n Slot.uninit) src =
      ((src.take n).map (fun a => Slot.filled (conv a)) ++
        List.replicate (n - src.length) Slot.uninit,
       min n src.length,
       src.drop n) := by
  induction src generalizing n with
  | nil =>
    cases n with
    | zero => simp [fillLoop]
    | succ m => simp [fillLoop, List.replicate_succ]
  | cons a src ih =>
    cases n with
    | zero => simp [fillLoop]
    | succ m =>
      simp [fillLoop, List.replicate_succ, ih, Nat.succ_min_succ,
        Nat.succ_sub_succ]

/-- Componentwise subtraction of positions, unfolded. -/
theorem Position.sub_def [Sub N] (p q : Position N) :
    p - q = ⟨p.x - q.x, p.y - q.y⟩ := rfl

/-- C5: `change` mutates only the coordinate named by the convention
(`Up` subtracts `steps` from `y`, `Down` adds to `y`, `Right` adds to `x`,
`Left` subtracts from `x`, the other coordinate unchanged), and `rev_change`
is identical except that the `y` axis is inverted while the `x` cases are
unchanged. -/
theorem change_rev_change_spec {N : Type u} [Add N] [Sub N]
    (p : Position N) (k : N) :
    p.change .Up k = ⟨p.x, p.y - k⟩ ∧
    p.change .Down k = ⟨p.x, p.y + k⟩ ∧
    p.change .Right k = ⟨p.x + k, p.y⟩ ∧
    p.change .Left k = ⟨p.x - k, p.y⟩ ∧
    p.rev_change .Up k = ⟨p.x, p.y + k⟩ ∧
    p.rev_change .Down k = ⟨p.x, p.y - k⟩ ∧
    p.rev_change .Right k = ⟨p.x + k, p.y⟩ ∧
    p.rev_change .Left k = ⟨p.x - k, p.y⟩ :=
  ⟨rfl, rfl, rfl, rfl, rfl, rfl, rfl, rfl⟩

/-- C6: `reverse` is a total involution on the four-variant `Direction`
enumeration: `reverse (reverse d) = d` for every direction. -/
theorem reverse_reverse (d : Direction) : d.reverse.reverse = d := by
  cases d <;> rfl

/-- C7: for every position over `ℤ`, every direction and every step value
`k ≥ 0`, applying `change d k` and then `change (reverse d) k` yields the
original position. -/
theorem change_reverse_cancel (p : Position ℤ) (d : Direction) (k : ℤ)
    (h : 0 ≤ k) : (p.change d k).change d.reverse k = p := by
  cases p
  cases d <;> simp [Position.change, Direction.reverse]

/-- Witness for C7 at `p = (1, 2)`, `d = Up`, `k = 3`. -/
theorem change_reverse_cancel_witness :
    (0 : ℤ) ≤ 3 ∧
      (((⟨1, 2⟩ : Position ℤ).change .Up 3).change Direction.Up.reverse 3 =
        (⟨1, 2⟩ : Position ℤ)) :=
  ⟨by decide, change_reverse_cancel ⟨1, 2⟩ .Up 3 (by decide)⟩

/-- C8: `is_adjecent p q` is true exactly when the componentwise absolute
differences form one of the pairs `(1,0)`, `(0,1)`, `(1,1)`; in particular a
position is not adjacent to itself. -/
theorem is_adjecent_spec (p q : Position ℤ) :
    (p.is_adjecent q = true ↔
      (|p.x - q.x| = 1 ∧ |p.y - q.y| = 0) ∨
      (|p.x - q.x| = 0 ∧ |p.y - q.y| = 1) ∨
      (|p.x - q.x| = 1 ∧ |p.y - q.y| = 1)) ∧
    p.is_adjecent p = false := by
  constructor
  · simp only [Position.is_adjecent, Position.sub_def, Position.abs]
    split_ifs with h1 h2 h3 <;> simp_all
  · simp [Position.is_adjecent, Position.sub_def, Position.abs]

/-- C9: `minmax` returns its pair sorted ascending, `maxmin` sorted
descending, and both results are permutations of the input pair. -/
theorem minmax_maxmin_spec [LinearOrder T] (t : T × T) :
    (minmax t).1 ≤ (minmax t).2 ∧
    (maxmin t).2 ≤ (maxmin t).1 ∧
    (minmax t = t ∨ minmax t = (t.2, t.1)) ∧
    (maxmin t = t ∨ maxmin t = (t.2, t.1)) := by
  refine ⟨?_, ?_, ?_, ?_⟩
  · unfold minmax
    split_ifs with h
    · exact le_of_lt h
    · exact le_of_not_lt h
  · unfold maxmin
    split_ifs with h
    · exact le_of_lt h
    · exact le_of_not_lt h
  · unfold minmax
    split_ifs with h
    · exact Or.inl rfl
    · exact Or.inr rfl
  · unfold maxmin
    split_ifs with h
    · exact Or.inl rfl
    · exact Or.inr rfl

/-- C10: the `Display` impl for `Direction` never terminates: the source body
delegates formatting of `self` back to the very same `fmt`, so no finite
recursion depth produces a string.  For every fuel bound and every direction
the formatter fails to finish within the bound. -/
theorem fmt_diverges (fuel : Nat) (d : Direction) :
    Direction.fmtFuel fuel d = none := by
  induction fuel with
  | zero => rfl
  | succ n ih => exact ih

/-- Reading written slots back: `filterMap Slot.value?` over slots that were
all written recovers exactly the written values. -/
theorem filterMap_value_filled (conv : α → β) (l : List α) :
    (l.map (fun a => Slot.filled (conv a))).filterMap Slot.value? = l.map conv := by
  induction l with
  | nil => rfl
  | cons a l ih => simp [Slot.value?, ih]

/-- C1: when the source sequence yields fewer than `n` items, `arraycollect`
returns the fill error `"Too few elements"`; the indices passed to
`drop_in_place` are exactly the populated prefix `0..filled`, in order and
each exactly once, so no uninitialized slot is destroyed; at that moment the
array indeed holds written values exactly on that prefix and uninitialized
slots beyond it; and no array (partial or otherwise) is returned. -/
theorem arraycollect_short_input (conv : α → β) (n : Nat) (src : List α)
    (h : src.length < n) :
    (arraycollect conv n src).1 = Except.error "Too few elements" ∧
    (arraycollect conv n src).2.1 = List.range src.length ∧
    (arraycollect conv n src).2.1.Nodup ∧
    (∀ i, i ∈ (arraycollect conv n src).2.1 ↔ i < src.length) ∧
    (fillLoop conv (List.replicate n Slot.uninit) src).1 =
      src.map (fun a => Slot.filled (conv a)) ++
        List.replicate (n - src.length) Slot.uninit ∧
    ∀ out, (arraycollect conv n src).1 ≠ Except.ok out := by
  have hmin : min n src.length = src.length := Nat.min_eq_right (le_of_lt h)
  have key : arraycollect conv n src =
      (Except.error "Too few elements", List.range src.length, src.drop n) := by
    unfold arraycollect
    rw [fillLoop_replicate]
    simp only [hmin]
    rw [if_pos (Nat.ne_of_lt h)]
  refine ⟨by rw [key], by rw [key], ?_, ?_, ?_, ?_⟩
  · rw [key]
    exact List.nodup_range _
  · intro i
    rw [key]
    simp [List.mem_range]
  · rw [fillLoop_replicate]
    simp [List.take_of_length_le (le_of_lt h)]
  · intro out
    rw [key]
    simp

/-- Witness for C1: collecting the one-element source `[10]` into a
three-slot array. -/
theorem arraycollect_short_input_witness :
    [(10 : Nat)].length < 3 ∧
      ((arraycollect (fun a => a) 3 [(10 : Nat)]).1 =
          Except.error "Too few elements" ∧
        (arraycollect (fun a => a) 3 [(10 : Nat)]).2.1 =
          List.range [(10 : Nat)].length ∧
        (arraycollect (fun a => a) 3 [(10 : Nat)]).2.1.Nodup ∧
        (∀ i, i ∈ (arraycollect (fun a => a) 3 [(10 : Nat)]).2.1 ↔
          i < [(10 : Nat)].length) ∧
        (fillLoop (fun a => a) (List.replicate 3 Slot.uninit)
            [(10 : Nat)]).1 =
          [(10 : Nat)].map (fun a => Slot.filled a) ++
            List.replicate (3 - [(10 : Nat)].length) Slot.uninit ∧
        ∀ out, (arraycollect (fun a => a) 3 [(10 : Nat)]).1 ≠
          Except.ok out) :=
  ⟨by decide, arraycollect_short_input (fun a => a) 3 [10] (by decide)⟩

/-- C2: when the source has at least `n` items, `arraycollect` returns `Ok`
with the first `n` converted items, performs no drops, pulls exactly `n`
items, and the leftover iterator starts at the `(n+1)`-th item of the
original sequence. -/
theorem arraycollect_enough_input (conv : α → β) (n : Nat) (src : List α)
    (h : n ≤ src.length) :
    arraycollect conv n src =
      (Except.ok ((src.take n).map conv), [], src.drop n) ∧
    src.length - (src.drop n).length = n ∧
    (src.drop n).head? = src[n]? := by
  have hmin : min n src.length = n := Nat.min_eq_left h
  refine ⟨?_, ?_, List.head?_drop src n⟩
  · unfold arraycollect
    rw [fillLoop_replicate]
    simp only [hmin, Nat.sub_eq_zero_of_le h, List.replicate_zero,
      List.append_nil, ne_eq, not_true_eq_false, if_false, ite_false]
    rw [filterMap_value_filled]
  · simp only [List.length_drop]
    omega

/-- Witness for C2: collecting the first two items of `[0, 1, 2]`. -/
theorem arraycollect_enough_input_witness :
    2 ≤ [(0 : Nat), 1, 2].length ∧
      (arraycollect (fun a => a + 1) 2 [(0 : Nat), 1, 2] =
          (Except.ok (([(0 : Nat), 1, 2].take 2).map (fun a => a + 1)), [],
            [(0 : Nat), 1, 2].drop 2) ∧
        [(0 : Nat), 1, 2].length - ([(0 : Nat), 1, 2].drop 2).length = 2 ∧
        ([(0 : Nat), 1, 2].drop 2).head? = [(0 : Nat), 1, 2][2]?) :=
  ⟨by decide, arraycollect_enough_input (fun a => a + 1) 2 [0, 1, 2] (by decide)⟩

/-- A successful `Except` holds a value. -/
theorem isOk_exists {e : Except ε υ} (h : e.isOk) : ∃ v, e = Except.ok v := by
  cases e with
  | error a => simp [Except.isOk, Except.toBool] at h
  | ok v => exact ⟨v, rfl⟩

/-- `try_convert` when every item parses: all parsed values are collected and
the whole sequence is consumed. -/
theorem try_convert_all_ok (parse : σ → Except ε υ) (src : List σ)
    (h : ∀ x ∈ src, (parse x).isOk) :
    try_convert parse src =
      (Except.ok (src.filterMap fun s => (parse s).toOption), src.length) := by
  induction src with
  | nil => rfl
  | cons s src ih =>
    obtain ⟨v, hv⟩ := isOk_exists (h s (by simp))
    have ihs := ih (fun x hx => h x (by simp [hx]))
    simp [try_convert, hv, ihs, Except.toOption]

/-- `try_convert` when the `k`-th item is the first that fails to parse:
the parse error of that item is returned and exactly `k + 1` items are
consumed. -/
theorem try_convert_first_error (parse : σ → Except ε υ) :
    ∀ (src : List σ) (k : Nat) (x : σ) (e : ε),
      src[k]? = some x → parse x = Except.error e →
      (∀ i y, i < k → src[i]? = some y → (parse y).isOk) →
      try_convert parse src = (Except.error e, k + 1) := by
  intro src
  induction src with
  | nil =>
    intro k x e hk
    simp at hk
  | cons s src ih =>
    intro k x e hk hx hfirst
    cases k with
    | zero =>
      rw [List.getElem?_cons_zero, Option.some.injEq] at hk
      subst hk
      simp [try_convert, hx]
    | succ k =>
      obtain ⟨v, hv⟩ :=
        isOk_exists (hfirst 0 s (Nat.succ_pos k) List.getElem?_cons_zero)
      rw [List.getElem?_cons_succ] at hk
      have ihs := ih k x e hk hx (fun i y hi hy =>
        hfirst (i + 1) y (Nat.succ_lt_succ hi)
          (by rw [List.getElem?_cons_succ]; exact hy))
      simp [try_convert, hv, ihs]

/-- C4: the eager `try_convert` returns `Ok` with all parsed values when
every item parses (consuming the whole sequence), and otherwise returns the
parse error of the first failing item, consuming nothing after that item
(`k + 1` items consumed when the failure is at index `k`). -/
theorem try_convert_spec (parse : σ → Except ε υ) (src : List σ) :
    ((∀ x ∈ src, (parse x).isOk) →
      try_convert parse src =
        (Except.ok (src.filterMap fun s => (parse s).toOption), src.length)) ∧
    (∀ k x e, src[k]? = some x → parse x = Except.error e →
      (∀ i y, i < k → src[i]? = some y → (parse y).isOk) →
      try_convert parse src = (Except.error e, k + 1)) :=
  ⟨try_convert_all_ok parse src,
   fun k x e hk hx hfirst => try_convert_first_error parse src k x e hk hx hfirst⟩

/-- Witness for C4: parsing `[1, 2, 99, 4]` with a parser that rejects
values of `10` or more fails at index `2` with three items consumed. -/
theorem try_convert_spec_witness :
    try_convert (fun n : Nat => if n < 10 then Except.ok n else Except.error "bad")
        [1, 2, 99, 4] = (Except.error "bad", 3) :=
  (try_convert_spec (fun n : Nat =>
      if n < 10 then Except.ok n else Except.error "bad") [1, 2, 99, 4]).2
    2 99 "bad" (by rfl) (by rfl)
    (by
      intro i y hi hy
      rcases i with _ | _ | i
      · rw [List.getElem?_cons_zero, Option.some.injEq] at hy
        subst hy
        decide
      · rw [List.getElem?_cons_succ, List.getElem?_cons_zero,
          Option.some.injEq] at hy
        subst hy
        decide
      · omega)

/-- `try_convert_into_slice` when every item among the first
`min (buf.length) (src.length)` parses: full success, returning that count. -/
theorem tcis_all_ok (parse : σ → Except ε υ) :
    ∀ (buf : List υ) (src : List σ),
      (∀ i x, i < min buf.length src.length → src[i]? = some x →
        (parse x).isOk) →
      (try_convert_into_slice parse buf src).1 =
        Except.ok (min buf.length src.length) := by
  intro buf
  induction buf with
  | nil =>
    intro src h
    simp [try_convert_into_slice]
  | cons b buf ih =>
    intro src h
    cases src with
    | nil => simp [try_convert_into_slice]
    | cons s src =>
      obtain ⟨v, hv⟩ := isOk_exists
        (h 0 s (by simp only [List.length_cons]; omega)
          List.getElem?_cons_zero)
      have hm := ih src (fun i x hi hx =>
        h (i + 1) x (by simp only [List.length_cons] at hi ⊢; omega)
          (by rw [List.getElem?_cons_succ]; exact hx))
      cases hrec : try_convert_into_slice parse buf src with
      | mk r rest =>
        rw [hrec] at hm
        simp only at hm
        simp [try_convert_into_slice, hv, hrec, hm, Nat.succ_min_succ]

/-- `try_convert_into_slice` when the `k`-th item (with `k` inside the
buffer) is the first that fails to parse: `Err k` is returned, the first `k`
buffer positions hold the parsed values of the first `k` items, and the
positions from `k` on keep their prior contents. -/
theorem tcis_first_error (parse : σ → Except ε υ) :
    ∀ (buf : List υ) (src : List σ) (k : Nat) (x : σ) (e : ε),
      k < buf.length → src[k]? = some x → parse x = Except.error e →
      (∀ i y, i < k → src[i]? = some y → (parse y).isOk) →
      (try_convert_into_slice parse buf src).1 = Except.error k ∧
      (try_convert_into_slice parse buf src).2 =
        (src.take k).filterMap (fun s => (parse s).toOption) ++ buf.drop k ∧
      ((src.take k).filterMap (fun s => (parse s).toOption)).length = k := by
  intro buf
  induction buf with
  | nil =>
    intro src k x e hk
    simp at hk
  | cons b buf ih =>
    intro src k x e hk hsk hx hfirst
    cases src with
    | nil => simp at hsk
    | cons s src =>
      cases k with
      | zero =>
        rw [List.getElem?_cons_zero, Option.some.injEq] at hsk
        subst hsk
        refine ⟨?_, ?_, ?_⟩ <;> simp [try_convert_into_slice, hx]
      | succ k =>
        obtain ⟨v, hv⟩ := isOk_exists
          (hfirst 0 s (Nat.succ_pos k) List.getElem?_cons_zero)
        rw [List.getElem?_cons_succ] at hsk
        have hk' : k < buf.length := by
          simp only [List.length_cons] at hk
          omega
        have ihs := ih src k x e hk' hsk hx (fun i y hi hy =>
          hfirst (i + 1) y (Nat.succ_lt_succ hi)
            (by rw [List.getElem?_cons_succ]; exact hy))
        cases hrec : try_convert_into_slice parse buf src with
        | mk r rest =>
          rw [hrec] at ihs
          simp only at ihs
          obtain ⟨h1, h2, h3⟩ := ihs
          refine ⟨?_, ?_, ?_⟩
          · simp [try_convert_into_slice, hv, hrec, h1]
          · simp [try_convert_into_slice, hv, hrec, h1, h2, Except.toOption]
          · have hts : (parse s).toOption = some v := by rw [hv]; rfl
            simp [hts, h3]

/-- C3: if the `k`-th item (`k` within the buffer) is the first that fails to
parse, `try_convert_into_slice` returns `Err k`, with buffer positions
`0..k` holding the parsed values of the first `k` items and every later
position keeping its prior value; if no item among the first
`min (buf.length) (src.length)` fails, it returns `Ok` of that count. -/
theorem try_convert_into_slice_spec (parse : σ → Except ε υ)
    (buf : List υ) (src : List σ) :
    (∀ k x e, k < buf.length → src[k]? = some x → parse x = Except.error e →
      (∀ i y, i < k → src[i]? = some y → (parse y).isOk) →
      (try_convert_into_slice parse buf src).1 = Except.error k ∧
      (try_convert_into_slice parse buf src).2 =
        (src.take k).filterMap (fun s => (parse s).toOption) ++ buf.drop k ∧
      ((src.take k).filterMap (fun s => (parse s).toOption)).length = k) ∧
    ((∀ i x, i < min buf.length src.length → src[i]? = some x →
        (parse x).isOk) →
      (try_convert_into_slice parse buf src).1 =
        Except.ok (min buf.length src.length)) :=
  ⟨fun k x e hk hsk hx hfirst =>
     tcis_first_error parse buf src k x e hk hsk hx hfirst,
   fun h => tcis_all_ok parse buf src h⟩

/-- Witness for C3: filling the buffer `[0, 0, 0]` from `[1, 2, 99, 4]` with
a parser rejecting values of `10` or more stops at index `2` with the first
two values written and the last buffer slot untouched. -/
theorem try_convert_into_slice_spec_witness :
    (try_convert_into_slice
        (fun n : Nat => if n < 10 then Except.ok n else Except.error "bad")
        [0, 0, 0] [1, 2, 99, 4]).1 = Except.error 2 ∧
    (try_convert_into_slice
        (fun n : Nat => if n < 10 then Except.ok n else Except.error "bad")
        [0, 0, 0] [1, 2, 99, 4]).2 =
      ([1, 2, 99, 4].take 2).filterMap
          (fun s => ((fun n : Nat =>
            if n < 10 then Except.ok n else Except.error "bad") s).toOption) ++
        [0, 0, 0].drop 2 ∧
    (([1, 2, 99, 4].take 2).filterMap
        (fun s => ((fun n : Nat =>
          if n < 10 then Except.ok n else Except.error "bad") s).toOption)).length =
      2 :=
  (try_convert_into_slice_spec
      (fun n : Nat => if n < 10 then Except.ok n else Except.error "bad")
      [0, 0, 0] [1, 2, 99, 4]).1
    2 99 "bad" (by decide) (by rfl) (by rfl)
    (by
      intro i y hi hy
      rcases i with _ | _ | i
      · rw [List.getElem?_cons_zero, Option.some.injEq] at hy
        subst hy
        decide
      · rw [List.getElem?_cons_succ, List.getElem?_cons_zero,
          Option.some.injEq] at hy
        subst hy
        decide
      · omega)

end Libaoc
